import Mathlib

/-!
Shallow embedding of the azor-chatdog chat client core: the canonical tool
catalog and the schema adapters (src/tools/definitions.ts), the MCP tool
dispatcher (src/mcp/client.ts), the MCP server filename validation
(src/mcp/server.ts and its refactored variant), and the three backend
session loops: the Gemini wrapper, the node-llama-cpp wrapper and the
Ollama REST loop (src/llm/ollamaClient.ts).  Network and filesystem
effects are modelled by explicit environment records and response scripts;
JSON payloads are abstracted to strings; token counts and timestamps are
elided since no verified property mentions them.
-/

namespace Azor

/-- Gemini SchemaType enumeration from the generative-ai SDK. -/
inductive SchemaType
  | string
  | number
  | integer
  | boolean
  | object
  | array
  deriving DecidableEq, Repr

/-- One property entry of a Gemini parameter schema: a type plus an
optional description, as used by the four catalog declarations. -/
structure PropertySchema where
  type : SchemaType
  description : Option String := none
  deriving DecidableEq, Repr

/-- Gemini FunctionDeclaration parameters.  An Option field models a key
that may be absent from the underlying JS object. -/
structure ParameterSchema where
  type : SchemaType
  properties : Option (List (String × PropertySchema)) := none
  required : Option (List String) := none
  deriving DecidableEq, Repr

/-- Gemini FunctionDeclaration: the canonical tool declaration shape. -/
structure FunctionDeclaration where
  name : String
  description : Option String := none
  parameters : Option ParameterSchema := none
  deriving DecidableEq, Repr

/-- Tool definition for listing all chat threads (src/tools/definitions.ts). -/
def listThreadsTool : FunctionDeclaration :=
  { name := "list_threads"
    description := some
      "Lists all chat session threads stored in the ~/.azor/ directory. Returns a list of filenames with their last modified timestamps (updated_at in ISO format). Use this to see what threads exist and when they were last active."
    parameters := some { type := .object, properties := some [], required := some [] } }

/-- Tool definition for deleting a specific thread. -/
def deleteThreadTool : FunctionDeclaration :=
  { name := "delete_thread"
    description := some
      "Deletes a specific chat session thread file from the ~/.azor/ directory. Requires the exact filename (e.g., \"abc123-log.json\"). Returns success status and a message."
    parameters := some
      { type := .object
        properties := some
          [("filename",
            { type := .string
              description := some
                "The exact filename of the thread to delete (e.g., \"session_123-log.json\")" })]
        required := some ["filename"] } }

/-- Tool definition for reading metadata and messages of a thread. -/
def getThreadDataTool : FunctionDeclaration :=
  { name := "get_thread_data"
    description := some
      "Reads and returns both the metadata and the content (messages) of a specific chat thread from the ~/.azor/ directory. Requires the exact filename (e.g., \"abc123-log.json\"). Returns metadata (session_id, model, system_role, assistant_id, title) and messages array."
    parameters := some
      { type := .object
        properties := some
          [("filename",
            { type := .string
              description := some
                "The exact filename of the thread to read (e.g., \"session_123-log.json\")" })]
        required := some ["filename"] } }

/-- Tool definition for requesting clarification from the user. -/
def requestClarificationTool : FunctionDeclaration :=
  { name := "request_clarification"
    description := some
      "Request clarification from the user when the query is vague, ambiguous, or missing information needed to provide an accurate response. Use this instead of guessing or providing generic answers. The conversation will pause until the user provides the requested clarification."
    parameters := some
      { type := .object
        properties := some
          [("question",
            { type := .string
              description := some
                "The specific clarifying question to ask the user. Be clear and concise about what information is needed." })]
        required := some ["question"] } }

/-- All available tools for AZOR, in source order. -/
def azorTools : List FunctionDeclaration :=
  [listThreadsTool, deleteThreadTool, getThreadDataTool, requestClarificationTool]

/-- Gemini tool configuration: the declarations are passed through to the
model configuration unchanged. -/
structure GeminiToolConfig where
  functionDeclarations : List FunctionDeclaration
  deriving DecidableEq, Repr

/-- The Gemini-format adapter applied to an arbitrary catalog: a pure
wrapper around the unchanged declaration list. -/
def geminiToolConfigOf (declarations : List FunctionDeclaration) : GeminiToolConfig :=
  { functionDeclarations := declarations }

/-- Tool configuration for the Gemini model (src/tools/definitions.ts). -/
def toolConfig : GeminiToolConfig := geminiToolConfigOf azorTools

/-- Converts a Gemini SchemaType to a GBNF JSON Schema type string; the TS
source falls back to "string" on any unmapped value. -/
def geminiTypeToGbnfType : SchemaType → String
  | .string => "string"
  | .number => "number"
  | .integer => "integer"
  | .boolean => "boolean"
  | .object => "object"
  | .array => "array"

/-- A property of an emitted GBNF JSON schema. -/
structure GbnfProperty where
  type : String
  description : Option String := none
  deriving DecidableEq, Repr

/-- GBNF JSON schema emitted by convertParametersToGbnfSchema.  A `none`
field models the key being absent from the emitted object. -/
structure GbnfSchema where
  type : String
  properties : Option (List (String × GbnfProperty)) := none
  required : Option (List String) := none
  deriving DecidableEq, Repr

/-- Converts Gemini FunctionDeclaration parameters to GBNF JSON-schema
format: properties are copied with mapped types, and the required key is
emitted only when the source list is present and non-empty. -/
def convertParametersToGbnfSchema : Option ParameterSchema → Option GbnfSchema
  | none => none
  | some parameters =>
      some
        { type := geminiTypeToGbnfType parameters.type
          properties := parameters.properties.map fun props =>
            props.map fun kv =>
              (kv.1, { type := geminiTypeToGbnfType kv.2.type
                       description := kv.2.description })
          required :=
            match parameters.required with
            | some r => if 0 < r.length then some r else none
            | none => none }

/-- One entry of the node-llama-cpp functions map.  The handler function is
modelled separately as `createToolHandler`. -/
structure LlamaTool where
  description : Option String := none
  params : Option GbnfSchema := none
  deriving DecidableEq, Repr

/-- JavaScript object-key assignment on an insertion-ordered record:
assigning an existing key overwrites it in place, a new key is appended. -/
def jsRecordInsert (m : List (String × α)) (k : String) (v : α) : List (String × α) :=
  if m.any (fun p => p.1 == k) then
    m.map (fun p => if p.1 == k then (k, v) else p)
  else m ++ [(k, v)]

/-- The llama map entry built from one declaration. -/
def llamaToolEntry (decl : FunctionDeclaration) : LlamaTool :=
  { description := decl.description
    params := convertParametersToGbnfSchema decl.parameters }

/-- Converts a Gemini FunctionDeclaration array to the node-llama-cpp
ChatSessionModelFunctions record, keyed by tool name. -/
def convertToLlamaTools (declarations : List FunctionDeclaration) :
    List (String × LlamaTool) :=
  declarations.foldl
    (fun acc decl => jsRecordInsert acc decl.name (llamaToolEntry decl)) []

/-- Pre-converted tool configuration for Llama models. -/
def llamaToolConfig : List (String × LlamaTool) := convertToLlamaTools azorTools

/-- Parameter object of an Ollama tool: the required list is always
emitted, defaulting to the empty list. -/
structure OllamaFunctionParams where
  type : String := "object"
  required : List String := []
  properties : List (String × GbnfProperty) := []
  deriving DecidableEq, Repr

/-- Function member of an Ollama tool wrapper. -/
structure OllamaFunction where
  name : String
  description : String
  parameters : OllamaFunctionParams
  deriving DecidableEq, Repr

/-- Ollama tool definition wrapper with type "function". -/
structure OllamaTool where
  type : String := "function"
  function : OllamaFunction
  deriving DecidableEq, Repr

/-- Converts a Gemini FunctionDeclaration array to the Ollama tool array. -/
def convertToOllamaTools (declarations : List FunctionDeclaration) : List OllamaTool :=
  declarations.map fun decl =>
    { type := "function"
      function :=
        { name := decl.name
          description := decl.description.getD ""
          parameters :=
            { type := "object"
              required := (decl.parameters.bind ParameterSchema.required).getD []
              properties :=
                ((decl.parameters.bind ParameterSchema.properties).getD []).map fun kv =>
                  (kv.1, { type := geminiTypeToGbnfType kv.2.type
                           description := kv.2.description }) } } }

/-- Pre-converted tool configuration for Ollama models. -/
def ollamaToolConfig : List OllamaTool := convertToOllamaTools azorTools

/-- Name of the clarification tool for detection. -/
def CLARIFICATION_TOOL_NAME : String := "request_clarification"

/-- Behaviour of the external MCP tool-execution backend as seen by the
client: each operation is an oracle yielding either a JSON payload
(abstracted to a string) or a thrown error message. -/
structure McpEnv where
  listThreadsResult : Except String String
  deleteThreadResult : Option String → Except String String

/-- MCPClient.executeTool (src/mcp/client.ts): a switch that handles only
list_threads and delete_thread and throws "Unknown tool" on every other
name.  The filename argument is extracted from the argument object. -/
def mcpExecuteTool (env : McpEnv) (name : String) (args : List (String × String)) :
    Except String String :=
  if name = "list_threads" then env.listThreadsResult
  else if name = "delete_thread" then env.deleteThreadResult (args.lookup "filename")
  else .error ("Unknown tool: " ++ name)

/-- Result of a tool handler: either the tool payload or an error object,
the error folded back into the loop as ordinary data, never rethrown. -/
inductive HandlerOut
  | value (payload : String)
  | errorObj (message : String)
  deriving DecidableEq, Repr

/-- createToolHandler (src/tools/definitions.ts): wraps mcpExecuteTool in a
try/catch that converts any thrown error into an error-object result. -/
def createToolHandler (env : McpEnv) (toolName : String)
    (params : List (String × String)) : HandlerOut :=
  match mcpExecuteTool env toolName params with
  | .ok result => .value result
  | .error e => .errorObj e

/-- True when the first character list is an initial segment of the
second. -/
def startsWithChars : List Char → List Char → Bool
  | [], _ => true
  | _ :: _, [] => false
  | p :: ps, c :: cs => p == c && startsWithChars ps cs

/-- True when pat occurs as a contiguous run inside the character list. -/
def hasSubstrChars (pat : List Char) : List Char → Bool
  | [] => pat.isEmpty
  | c :: cs => startsWithChars pat (c :: cs) || hasSubstrChars pat cs

/-- JavaScript String.includes: true when pat occurs as a substring. -/
def strIncludes (s pat : String) : Bool := hasSubstrChars pat.data s.data

/-- validateFilename of the MCP server: returns some error message when
the filename is rejected and none when it is accepted.  The same three
checks appear inline in both handlers of src/mcp/server.ts. -/
def validateFilename (filename operation : String) : Option String :=
  if filename = "" || filename.trim = "" then
    some "Invalid filename: filename cannot be empty."
  else if !(filename.endsWith ".json") then
    some ("Invalid filename: only .json files can be " ++ operation ++ ".")
  else if strIncludes filename ".." || strIncludes filename "/" ||
      strIncludes filename "\\" then
    some "Invalid filename: path traversal is not allowed."
  else none

/-- One attempted filesystem side effect of an MCP server handler. -/
inductive FsEffect
  | unlink (path : String)
  | readFile (path : String)
  deriving DecidableEq, Repr

/-- Filesystem oracle for the MCP server handlers: existence checks plus
the outcomes of unlink and read-file calls. -/
structure FsEnv where
  fileExists : String → Bool
  unlinkResult : String → Except String Unit
  readResult : String → Except String String

/-- Modelled from the spec: src/files/config.ts, which defines LOG_DIR, is
not part of the provided sources; the spec fixes the thread directory as
the ~/.azor directory. -/
def LOG_DIR : String := "~/.azor"

/-- path.join as used by the server handlers. -/
def joinPath (dir file : String) : String := dir ++ "/" ++ file

/-- Structured output of the delete_thread tool. -/
structure ToolCallOutput where
  success : Bool
  message : String
  deriving DecidableEq, Repr

/-- delete_thread handler of the MCP server: validates the filename, then
checks existence, then unlinks; the returned effect list records every
filesystem mutation or file read that was attempted. -/
def deleteThreadHandler (fs : FsEnv) (filename : String) :
    ToolCallOutput × List FsEffect :=
  match validateFilename filename "deleted" with
  | some e => ({ success := false, message := e }, [])
  | none =>
    let filePath := joinPath LOG_DIR filename
    if !(fs.fileExists filePath) then
      ({ success := false
         message := "File \"" ++ filename ++ "\" not found in " ++ LOG_DIR ++ "." }, [])
    else
      match fs.unlinkResult filePath with
      | .ok _ =>
          ({ success := true
             message := "Successfully deleted \"" ++ filename ++ "\"." },
           [.unlink filePath])
      | .error err =>
          ({ success := false
             message := "Failed to delete \"" ++ filename ++ "\": " ++ err },
           [.unlink filePath])

/-- Structured output of the get_thread_data tool; the parsed metadata and
messages are abstracted into a single payload string. -/
structure ThreadDataOutput where
  success : Bool
  message : Option String := none
  payload : Option String := none
  deriving DecidableEq, Repr

/-- get_thread_data handler of the MCP server: same validation as delete,
then existence check, then a read whose JSON parsing is folded into the
read oracle. -/
def getThreadDataHandler (fs : FsEnv) (filename : String) :
    ThreadDataOutput × List FsEffect :=
  match validateFilename filename "read" with
  | some e => ({ success := false, message := some e }, [])
  | none =>
    let filePath := joinPath LOG_DIR filename
    if !(fs.fileExists filePath) then
      ({ success := false
         message := some ("File \"" ++ filename ++ "\" not found in " ++ LOG_DIR ++ ".") }, [])
    else
      match fs.readResult filePath with
      | .ok content =>
          ({ success := true, payload := some content }, [.readFile filePath])
      | .error err =>
          ({ success := false
             message := some ("Failed to read \"" ++ filename ++ "\": " ++ err) },
           [.readFile filePath])

/-- A tool call returned by a model: name plus an argument object whose
values are abstracted to strings. -/
structure ToolCall where
  name : String
  args : List (String × String)
  deriving DecidableEq, Repr

/-- JS truthiness of args.question: the question is taken only when the
key is present with a non-empty value. -/
def questionOf (args : List (String × String)) : Option String :=
  match args.lookup "question" with
  | some q => if q = "" then none else some q
  | none => none

/-- Role of a message in the universal conversation history. -/
inductive ChatRole
  | user
  | model
  deriving DecidableEq, Repr

/-- One entry of the universal conversation history (timestamp elided). -/
structure ChatMessage where
  role : ChatRole
  text : String
  deriving DecidableEq, Repr

/-- LLMResponse as returned by every sendMessage variant (tokensUsed
elided). -/
structure LLMResponse where
  text : String
  clarificationNeeded : Option String := none
  deriving DecidableEq, Repr

/-- The fixed localized fallback assistant message used by the sendMessage
catch blocks. -/
def fallbackText : String :=
  "Przepraszam, wystąpił błąd podczas generowania odpowiedzi."

/-- One Gemini backend response: the answer text plus the batch of
function calls it carries. -/
structure GeminiResponse where
  text : String
  functionCalls : List ToolCall
  deriving DecidableEq, Repr

/-- The clarification question extracted from a batch: the first call
named request_clarification, provided its question argument is truthy. -/
def geminiClarQuestion (calls : List ToolCall) : Option String :=
  match calls.find? (fun c => c.name == CLARIFICATION_TOOL_NAME) with
  | some c => questionOf c.args
  | none => none

/-- Outcome of one Gemini sendMessage turn: the response handed to the
orchestrator plus the audit list of calls dispatched to the MCP client. -/
structure GeminiTurn where
  response : LLMResponse
  dispatched : List ToolCall
  deriving DecidableEq, Repr

/-- The Gemini function-calling loop of GeminiChatSessionWrapper
.sendMessage, driven by the script of backend responses; the function
responses sent back to the model are subsumed by the script.  `none`
models a script too short to finish the turn. -/
def geminiLoop : List GeminiResponse → Option GeminiTurn
  | [] => none
  | r :: rest =>
    if r.functionCalls.isEmpty then
      some { response := { text := r.text }, dispatched := [] }
    else
      match geminiClarQuestion r.functionCalls with
      | some q =>
          some { response := { text := "", clarificationNeeded := some q }
                 dispatched := [] }
      | none =>
        let otherCalls := r.functionCalls.filter
          (fun c => !(c.name == CLARIFICATION_TOOL_NAME))
        if otherCalls.isEmpty then
          some { response := { text := r.text }, dispatched := [] }
        else
          match geminiLoop rest with
          | some t => some { response := t.response
                             dispatched := otherCalls ++ t.dispatched }
          | none => none

/-- GeminiChatSessionWrapper.sendMessage: the first response is fetched
unconditionally; the loop runs only when tools are enabled. -/
def geminiSendMessage (toolsEnabled : Bool) (script : List GeminiResponse) :
    Option GeminiTurn :=
  match script with
  | [] => none
  | r :: rest =>
    if toolsEnabled then geminiLoop (r :: rest)
    else some { response := { text := r.text }, dispatched := [] }

/-- Content of an Ollama transcript message.  Tool-result contents keep
the JSON.stringify structure as tagged data instead of raw strings. -/
inductive MessageContent
  | text (s : String)
  | clarificationPlaceholder
  | toolOk (payload : String)
  | toolErr (message : String)
  deriving DecidableEq, Repr

/-- OllamaMessage: one entry of the backend-native transcript. -/
structure OllamaMessage where
  role : String
  content : MessageContent
  tool_calls : List ToolCall := []
  tool_name : Option String := none
  deriving DecidableEq, Repr

/-- The message member of an Ollama chat API response. -/
structure OllamaRespMessage where
  role : String := "assistant"
  content : String
  tool_calls : List ToolCall := []
  deriving DecidableEq, Repr

/-- OllamaChatResponse with the fields the loop reads (token counts,
model name and timing elided). -/
structure OllamaChatResponse where
  message : OllamaRespMessage
  deriving DecidableEq, Repr

/-- Mutable state of an OllamaChatSession instance. -/
structure OllamaSession where
  systemInstruction : String
  history : List ChatMessage
  toolsEnabled : Bool
  toolsSupported : Bool := true
  tools : List OllamaTool
  ollamaMessages : List OllamaMessage := []
  deriving DecidableEq, Repr

/-- Whether one makeOllamaRequest call puts tool declarations on the wire:
the request body gets a tools member only when the call site asks for
tools and the session still has them enabled, supported, and non-empty. -/
def requestIncludesTools (s : OllamaSession) (includeTools : Bool) : Bool :=
  includeTools && s.toolsEnabled && s.toolsSupported && decide (0 < s.tools.length)

/-- Accumulator of OllamaChatSession.executeToolCalls: the tool-role
messages produced, the last clarification question seen, and the audit
list of calls actually dispatched to the MCP client. -/
structure ExecToolsOut where
  messages : List OllamaMessage
  clarificationQuestion : Option String := none
  dispatched : List ToolCall := []
  deriving DecidableEq, Repr

/-- One iteration of the executeToolCalls for-loop: a clarification call
with a truthy question records the question and a placeholder tool
message and is never dispatched; every other call is dispatched to the
MCP client and its result or caught error becomes a tool message. -/
def executeToolCallsStep (env : McpEnv) (acc : ExecToolsOut) (call : ToolCall) :
    ExecToolsOut :=
  if call.name == CLARIFICATION_TOOL_NAME then
    match questionOf call.args with
    | some q =>
        { acc with
          clarificationQuestion := some q
          messages := acc.messages ++
            [{ role := "tool", content := .clarificationPlaceholder
               tool_name := some call.name }] }
    | none => acc
  else
    match mcpExecuteTool env call.name call.args with
    | .ok result =>
        { acc with
          messages := acc.messages ++
            [{ role := "tool", content := .toolOk result, tool_name := some call.name }]
          dispatched := acc.dispatched ++ [call] }
    | .error e =>
        { acc with
          messages := acc.messages ++
            [{ role := "tool", content := .toolErr e, tool_name := some call.name }]
          dispatched := acc.dispatched ++ [call] }

/-- OllamaChatSession.executeToolCalls: sequential processing of the whole
batch, in array order. -/
def executeToolCalls (env : McpEnv) (toolCalls : List ToolCall) : ExecToolsOut :=
  toolCalls.foldl (executeToolCallsStep env) { messages := [] }

/-- Appends the final assistant answer to both the backend transcript and
the universal history, as the no-more-tool-calls branch does. -/
def ollamaFinalize (s : OllamaSession) (content : String) : OllamaSession :=
  { s with
    ollamaMessages := s.ollamaMessages ++
      [{ role := "assistant", content := .text content }]
    history := s.history ++ [{ role := .model, text := content }] }

/-- Instruction produced by one round of the loop body after a successful
chat response. -/
inductive HandleOut
  | clarification (q : String) (s : OllamaSession) (dispatched : List ToolCall)
  | finalAnswer (text : String) (s : OllamaSession)
  | continueLoop (s : OllamaSession) (dispatched : List ToolCall)
  deriving Repr

/-- The body of the Ollama function-calling loop once a chat response has
arrived: with tools enabled, supported and a non-empty tool-call batch it
pushes the assistant message with its calls, executes the batch, pushes
the tool messages, and either ends the turn on a clarification or loops;
otherwise the response content is the final answer. -/
def ollamaHandleData (env : McpEnv) (s : OllamaSession) (data : OllamaChatResponse) :
    HandleOut :=
  if s.toolsEnabled && s.toolsSupported && !data.message.tool_calls.isEmpty then
    let ex := executeToolCalls env data.message.tool_calls
    let s2 := { s with
      ollamaMessages := s.ollamaMessages ++
        [{ role := "assistant", content := .text data.message.content
           tool_calls := data.message.tool_calls }] ++ ex.messages }
    match ex.clarificationQuestion with
    | some q => .clarification q s2 ex.dispatched
    | none => .continueLoop s2 ex.dispatched
  else
    .finalAnswer data.message.content (ollamaFinalize s data.message.content)

/-- Outcome of one makeOllamaRequest call, as classified by the response
handling of makeOllamaRequest: a parsed chat response, the recognizable
does-not-support-tools error, or any other thrown error (non-ok status,
network failure, or the abort-signal timeout). -/
inductive OllamaReply
  | success (data : OllamaChatResponse)
  | toolsNotSupported
  | hardError
  deriving DecidableEq, Repr

/-- Result of one OllamaChatSession.sendMessage turn: the returned
LLMResponse, the post-turn session state, the with-tools flag of every
request made this turn in order, and the audit list of dispatched calls. -/
structure OllamaTurn where
  response : LLMResponse
  session : OllamaSession
  requests : List Bool
  dispatched : List ToolCall
  deriving DecidableEq, Repr

/-- The catch block of sendMessage: any hard failure becomes the fixed
fallback assistant message, appended to the universal history only. -/
def ollamaFallback (s : OllamaSession) (requests : List Bool) : OllamaTurn :=
  { response := { text := fallbackText }
    session := { s with history := s.history ++ [{ role := .model, text := fallbackText }] }
    requests := requests
    dispatched := [] }

/-- The Ollama function-calling loop, driven by the script of request
outcomes.  A ToolsNotSupportedError on a request is caught, permanently
flips toolsSupported off and immediately retries the same request with
tools omitted; an error on the retry, or any other error, falls to the
outer catch.  `none` models a script too short to finish the turn. -/
def ollamaLoop (env : McpEnv) : OllamaSession → List OllamaReply → Option OllamaTurn
  | _, [] => none
  | s, .hardError :: _ => some (ollamaFallback s [requestIncludesTools s true])
  | s, .success data :: rest =>
    (match ollamaHandleData env s data with
     | .clarification q s2 disp =>
         some { response := { text := "", clarificationNeeded := some q }
                session := s2
                requests := [requestIncludesTools s true]
                dispatched := disp }
     | .finalAnswer t s2 =>
         some { response := { text := t }, session := s2
                requests := [requestIncludesTools s true], dispatched := [] }
     | .continueLoop s2 disp =>
         match ollamaLoop env s2 rest with
         | some r => some { r with
             requests := requestIncludesTools s true :: r.requests
             dispatched := disp ++ r.dispatched }
         | none => none)
  | _, [.toolsNotSupported] => none
  | s, .toolsNotSupported :: .success data :: rest2 =>
    let s1 : OllamaSession := { s with toolsSupported := false }
    let reqs := [requestIncludesTools s true, requestIncludesTools s1 false]
    (match ollamaHandleData env s1 data with
     | .clarification q s2 disp =>
         some { response := { text := "", clarificationNeeded := some q }
                session := s2, requests := reqs, dispatched := disp }
     | .finalAnswer t s2 =>
         some { response := { text := t }, session := s2
                requests := reqs, dispatched := [] }
     | .continueLoop s2 disp =>
         match ollamaLoop env s2 rest2 with
         | some r => some { r with
             requests := reqs ++ r.requests
             dispatched := disp ++ r.dispatched }
         | none => none)
  | s, .toolsNotSupported :: .hardError :: _ =>
    some (ollamaFallback { s with toolsSupported := false }
      [requestIncludesTools s true,
       requestIncludesTools { s with toolsSupported := false } false])
  | s, .toolsNotSupported :: .toolsNotSupported :: _ =>
    some (ollamaFallback { s with toolsSupported := false }
      [requestIncludesTools s true,
       requestIncludesTools { s with toolsSupported := false } false])

/-- initializeOllamaMessages: seeds the backend transcript with the system
instruction (when non-empty) followed by the universal history. -/
def initializeOllamaMessages (s : OllamaSession) : List OllamaMessage :=
  (if s.systemInstruction = "" then ([] : List OllamaMessage)
   else [{ role := "system", content := .text s.systemInstruction }]) ++
  s.history.map (fun m =>
    { role := if m.role = .model then "assistant" else "user"
      content := .text m.text })

/-- OllamaChatSession.sendMessage: pushes the user message to the history,
lazily initializes the backend transcript (from the history that already
contains the new user message, as in the source), pushes the user message
to the transcript and runs the loop. -/
def ollamaSendMessage (env : McpEnv) (s : OllamaSession) (text : String)
    (script : List OllamaReply) : Option OllamaTurn :=
  let sUser := { s with history := s.history ++ [{ role := .user, text := text }] }
  let base := if sUser.ollamaMessages.isEmpty then initializeOllamaMessages sUser
              else sUser.ollamaMessages
  ollamaLoop env
    { sUser with ollamaMessages := base ++ [{ role := "user", content := .text text }] }
    script

/-- Runs several consecutive sendMessage turns against one session
instance, each with its own user text and backend script. -/
def ollamaRunTurns (env : McpEnv) :
    OllamaSession → List (String × List OllamaReply) →
    Option (OllamaSession × List OllamaTurn)
  | s, [] => some (s, [])
  | s, (text, script) :: rest =>
    match ollamaSendMessage env s text script with
    | none => none
    | some turn =>
      match ollamaRunTurns env turn.session rest with
      | none => none
      | some (sEnd, turns) => some (sEnd, turn :: turns)

/-- Mutable state of a LlamaChatSession wrapper instance (the
node-llama-cpp session handle itself is opaque). -/
structure LlamaSession where
  history : List ChatMessage
  pendingClarification : Option String := none
  toolsEnabled : Bool
  deriving DecidableEq, Repr

/-- Result of one opaque prompt call of the node-llama-cpp runtime: the
generated text together with the final value the clarification handler
wrote into the side slot during the call, or a thrown error. -/
inductive LlamaPromptResult
  | ok (response : String) (slot : Option String)
  | err
  deriving DecidableEq, Repr

/-- LlamaChatSession.sendMessage: pushes the user message, resets the
side slot, runs the opaque prompt (handlers are passed only when tools
are enabled, so the slot can be written only then), and afterwards checks
the slot: a recorded question ends the turn as a clarification without an
assistant message, otherwise the trimmed response is appended. -/
def llamaSendMessage (s : LlamaSession) (text : String) (pr : LlamaPromptResult) :
    LlamaSession × LLMResponse :=
  let s1 : LlamaSession := { s with
    history := s.history ++ [{ role := .user, text := text }]
    pendingClarification := none }
  match pr with
  | .err =>
    (({ s1 with history := s1.history ++ [{ role := .model, text := fallbackText }] }
        : LlamaSession),
     ({ text := fallbackText } : LLMResponse))
  | .ok response slot =>
    let s2 : LlamaSession := { s1 with
      pendingClarification := if s1.toolsEnabled then slot else none }
    match s2.pendingClarification with
    | some q =>
        (({ s2 with pendingClarification := none } : LlamaSession),
         ({ text := "", clarificationNeeded := some q } : LLMResponse))
    | none =>
        (({ s2 with history := s2.history ++ [{ role := .model, text := response.trim }] }
            : LlamaSession),
         ({ text := response.trim } : LLMResponse))

/-! Concrete fixtures used by witnesses and counterexamples. -/

/-- A benign MCP backend environment for concrete runs. -/
def mcpEnvW : McpEnv :=
  { listThreadsResult := .ok "threads: none"
    deleteThreadResult := fun _ => .ok "deleted" }

/-- A benign filesystem environment for concrete runs. -/
def fsEnvW : FsEnv :=
  { fileExists := fun _ => true
    unlinkResult := fun _ => .ok ()
    readResult := fun _ => .ok "data" }

/-- A clarification call carrying a question. -/
def clarCallX : ToolCall :=
  { name := "request_clarification", args := [("question", "Która sesja?")] }

/-- An ordinary informational call in the same batch. -/
def listCallX : ToolCall := { name := "list_threads", args := [] }

/-- A chat response whose batch holds a clarification call followed by an
ordinary call. -/
def dataX : OllamaChatResponse :=
  { message := { content := "", tool_calls := [clarCallX, listCallX] } }

/-- A plain final-answer chat response without tool calls. -/
def dataP : OllamaChatResponse := { message := { content := "ok" } }

/-- A chat response carrying a tool-call batch and answer text, used to
exercise the downgraded state. -/
def dataT : OllamaChatResponse :=
  { message := { content := "Hej", tool_calls := [listCallX] } }

/-- A fresh tools-enabled Ollama session. -/
def sessionX : OllamaSession :=
  { systemInstruction := "", history := [], toolsEnabled := true
    toolsSupported := true, tools := ollamaToolConfig }

/-- The same session after a capability downgrade. -/
def sessionDownX : OllamaSession := { sessionX with toolsSupported := false }

end Azor

namespace Azor

/-! Helper lemmas shared between the claim theorems. -/

theorem validateFilename_invalid (filename operation : String)
    (h : filename.trim = "" ∨ filename.endsWith ".json" = false ∨
         strIncludes filename ".." = true ∨ strIncludes filename "/" = true ∨
         strIncludes filename "\\" = true) :
    ∃ e, validateFilename filename operation = some e ∧ e ≠ "" := by
  unfold validateFilename
  split
  · exact ⟨_, rfl, by decide⟩
  · rename_i h1
    split
    · refine ⟨_, rfl, fun hc => ?_⟩
      have hlen := congrArg String.length hc
      simp only [String.length_append] at hlen
      have hdot : String.length "." = 1 := rfl
      have hemp : String.length "" = 0 := rfl
      rw [hdot, hemp] at hlen
      omega
    · rename_i h2
      split
      · exact ⟨_, rfl, by decide⟩
      · rename_i h3
        exfalso
        rcases h with h | h | h | h | h <;> simp_all

/-- C8: for every filename that is empty or whitespace-only, lacks the
.json suffix, or contains a path-traversal sequence, both the
delete_thread and the get_thread_data handler return success false with a
non-empty message, and attempt no filesystem deletion or read. -/
theorem filename_validation_rejects (fs : FsEnv) (filename : String)
    (h : filename.trim = "" ∨ filename.endsWith ".json" = false ∨
         strIncludes filename ".." = true ∨ strIncludes filename "/" = true ∨
         strIncludes filename "\\" = true) :
    (deleteThreadHandler fs filename).1.success = false ∧
    (deleteThreadHandler fs filename).1.message ≠ "" ∧
    (deleteThreadHandler fs filename).2 = [] ∧
    (getThreadDataHandler fs filename).1.success = false ∧
    (getThreadDataHandler fs filename).2 = [] := by
  obtain ⟨e1, hv1, he1⟩ := validateFilename_invalid filename "deleted" h
  obtain ⟨e2, hv2, he2⟩ := validateFilename_invalid filename "read" h
  simp [deleteThreadHandler, getThreadDataHandler, hv1, hv2, he1]

/-- Witness for C8: the traversal filename ../secrets.json is rejected by
both handlers without touching the filesystem. -/
theorem filename_validation_rejects_witness :
    (deleteThreadHandler fsEnvW "../secrets.json").1.success = false ∧
    (deleteThreadHandler fsEnvW "../secrets.json").1.message ≠ "" ∧
    (deleteThreadHandler fsEnvW "../secrets.json").2 = [] ∧
    (getThreadDataHandler fsEnvW "../secrets.json").1.success = false ∧
    (getThreadDataHandler fsEnvW "../secrets.json").2 = [] :=
  filename_validation_rejects fsEnvW "../secrets.json"
    (Or.inr (Or.inr (Or.inl (by decide))))

/-- C3: the dispatcher boundary never lets an error escape: an error of
the external call, including the unknown-tool error, comes back as an
error-object result, and a success comes back as a value result. -/
theorem dispatcher_never_raises (env : McpEnv) (name : String)
    (args : List (String × String)) :
    (∀ e, mcpExecuteTool env name args = .error e →
        createToolHandler env name args = .errorObj e) ∧
    (∀ v, mcpExecuteTool env name args = .ok v →
        createToolHandler env name args = .value v) ∧
    (name ≠ "list_threads" → name ≠ "delete_thread" →
        createToolHandler env name args = .errorObj ("Unknown tool: " ++ name)) := by
  refine ⟨fun e he => ?_, fun v hv => ?_, fun h1 h2 => ?_⟩
  · simp [createToolHandler, he]
  · simp [createToolHandler, hv]
  · simp [createToolHandler, mcpExecuteTool, h1, h2]

/-- Witness for C3: executing the advertised but unhandled tool name
get_thread_data yields an error object, not an exception. -/
theorem dispatcher_never_raises_witness :
    createToolHandler mcpEnvW "get_thread_data" [("filename", "a.json")] =
      .errorObj ("Unknown tool: " ++ "get_thread_data") :=
  (dispatcher_never_raises mcpEnvW "get_thread_data" [("filename", "a.json")]).2.2
    (by decide) (by decide)

/-- C9: get_thread_data is declared in the canonical catalog, yet
MCPClient.executeTool throws Unknown tool for every name other than
list_threads and delete_thread, so a model call to get_thread_data always
surfaces as an error tool result. -/
theorem unknown_tool_get_thread_data :
    ("get_thread_data" ∈ azorTools.map FunctionDeclaration.name) ∧
    (∀ (env : McpEnv) (args : List (String × String)) (name : String),
        name ≠ "list_threads" → name ≠ "delete_thread" →
        mcpExecuteTool env name args = .error ("Unknown tool: " ++ name)) ∧
    (∀ (env : McpEnv) (args : List (String × String)),
        mcpExecuteTool env "get_thread_data" args =
          .error ("Unknown tool: " ++ "get_thread_data") ∧
        createToolHandler env "get_thread_data" args =
          .errorObj ("Unknown tool: " ++ "get_thread_data")) := by
  refine ⟨?_, fun env args name h1 h2 => ?_, fun env args => ⟨?_, ?_⟩⟩
  · simp [azorTools, listThreadsTool, deleteThreadTool, getThreadDataTool,
      requestClarificationTool]
  · simp [mcpExecuteTool, h1, h2]
  · simp [mcpExecuteTool]
  · simp [createToolHandler, mcpExecuteTool]

/-- Witness for C9: the unknown-tool branch at the concrete environment. -/
theorem unknown_tool_get_thread_data_witness :
    mcpExecuteTool mcpEnvW "get_thread_data" [] =
      .error ("Unknown tool: " ++ "get_thread_data") :=
  (unknown_tool_get_thread_data.2.1 mcpEnvW [] "get_thread_data"
    (by decide) (by decide))

/-- C6 (amended): the llama/GBNF-format adapter omits the required key
whenever the declaration's required list is absent or empty, as witnessed
concretely on the converted list_threads entry of the llama catalog; the
Gemini-format config, by contrast, passes declarations through unchanged
(see the counterexample). -/
theorem gbnf_omits_empty_required :
    (∀ p : ParameterSchema, p.required = none ∨ p.required = some [] →
        (convertParametersToGbnfSchema (some p)).map GbnfSchema.required = some none) ∧
    llamaToolConfig.lookup "list_threads" =
      some { description := listThreadsTool.description
             params := some { type := "object", properties := some [], required := none } } := by
  refine ⟨fun p h => ?_, rfl⟩
  rcases h with h | h <;> simp [convertParametersToGbnfSchema, h]

/-- Witness for C6: the empty-required schema converts with the required
key absent. -/
theorem gbnf_omits_empty_required_witness :
    (convertParametersToGbnfSchema
        (some { type := .object, properties := some [], required := some [] })).map
      GbnfSchema.required = some none :=
  gbnf_omits_empty_required.1
    { type := .object, properties := some [], required := some [] } (Or.inr rfl)

/-- Counterexample for C6: the Gemini-format adapter output contains the
list_threads declaration unchanged, whose parameter schema carries an
explicit empty required list rather than omitting the key; the Ollama
adapter likewise always emits a required list, empty included. -/
theorem gemini_required_counterexample :
    toolConfig.functionDeclarations.head? = some listThreadsTool ∧
    (listThreadsTool.parameters.map ParameterSchema.required) = some (some []) ∧
    (convertToOllamaTools [listThreadsTool]).map
      (fun t => t.function.parameters.required) = [[]] :=
  ⟨rfl, rfl, rfl⟩

theorem convertToLlamaTools_keys_aux (ds : List FunctionDeclaration) :
    ∀ m : List (String × LlamaTool),
      (∀ d ∈ ds, ∀ p ∈ m, p.1 ≠ d.name) →
      (ds.map FunctionDeclaration.name).Nodup →
      (ds.foldl (fun acc decl => jsRecordInsert acc decl.name (llamaToolEntry decl)) m).map
          Prod.fst = m.map Prod.fst ++ ds.map FunctionDeclaration.name := by
  induction ds with
  | nil => intro m _ _; simp
  | cons d ds ih =>
    intro m h1 h2
    simp only [List.map_cons, List.nodup_cons] at h2
    have hnotin : m.any (fun p => p.1 == d.name) = false := by
      rw [List.any_eq_false]
      intro p hp
      simpa using h1 d (List.mem_cons_self d ds) p hp
    have hins : jsRecordInsert m d.name (llamaToolEntry d) =
        m ++ [(d.name, llamaToolEntry d)] := by
      simp [jsRecordInsert, hnotin]
    have hside : ∀ d' ∈ ds, ∀ p ∈ m ++ [(d.name, llamaToolEntry d)], p.1 ≠ d'.name := by
      intro d' hd' p hp
      rcases List.mem_append.mp hp with hp' | hp'
      · exact h1 d' (List.mem_cons_of_mem d hd') p hp'
      · have hpv : p = (d.name, llamaToolEntry d) := by simpa using hp'
        subst hpv
        intro hcontra
        have hc2 : d.name = d'.name := hcontra
        exact h2.1 (by rw [hc2]; exact List.mem_map_of_mem FunctionDeclaration.name hd')
    have hrec := ih (m ++ [(d.name, llamaToolEntry d)]) hside h2.2
    rw [List.foldl_cons, hins, hrec]
    simp

/-- C7: on any catalog with unique tool names, the Gemini config, the
Ollama tool array and the llama functions map all list exactly the input
tool names in the input order. -/
theorem adapters_preserve_names (declarations : List FunctionDeclaration)
    (h : (declarations.map FunctionDeclaration.name).Nodup) :
    (geminiToolConfigOf declarations).functionDeclarations.map FunctionDeclaration.name
        = declarations.map FunctionDeclaration.name ∧
    (convertToOllamaTools declarations).map (fun t => t.function.name)
        = declarations.map FunctionDeclaration.name ∧
    (convertToLlamaTools declarations).map Prod.fst
        = declarations.map FunctionDeclaration.name := by
  refine ⟨rfl, ?_, ?_⟩
  · simp [convertToOllamaTools, List.map_map]
  · have := convertToLlamaTools_keys_aux declarations [] (by simp) h
    simpa [convertToLlamaTools] using this

theorem ollamaHandleData_clar (env : McpEnv) (s : OllamaSession)
    (data : OllamaChatResponse) (q : String) (s2 : OllamaSession) (disp : List ToolCall)
    (h : ollamaHandleData env s data = .clarification q s2 disp) :
    s2.history = s.history ∧ s2.toolsSupported = s.toolsSupported := by
  simp only [ollamaHandleData] at h
  split at h
  · split at h
    · injection h with hq hs hd
      rw [← hs]
      exact ⟨rfl, rfl⟩
    · cases h
  · cases h

theorem ollamaHandleData_cont (env : McpEnv) (s : OllamaSession)
    (data : OllamaChatResponse) (s2 : OllamaSession) (disp : List ToolCall)
    (h : ollamaHandleData env s data = .continueLoop s2 disp) :
    s2.history = s.history ∧ s2.toolsSupported = s.toolsSupported := by
  simp only [ollamaHandleData] at h
  split at h
  · split at h
    · cases h
    · injection h with hs hd
      rw [← hs]
      exact ⟨rfl, rfl⟩
  · cases h

theorem ollamaHandleData_final (env : McpEnv) (s : OllamaSession)
    (data : OllamaChatResponse) (t : String) (s2 : OllamaSession)
    (h : ollamaHandleData env s data = .finalAnswer t s2) :
    t = data.message.content ∧ s2 = ollamaFinalize s data.message.content := by
  simp only [ollamaHandleData] at h
  split at h
  · split at h
    · cases h
    · cases h
  · injection h with ht hs
    exact ⟨ht.symm, hs.symm⟩

theorem ollamaHandleData_not_supported (env : McpEnv) (s : OllamaSession)
    (data : OllamaChatResponse) (h : s.toolsSupported = false) :
    ollamaHandleData env s data =
      .finalAnswer data.message.content (ollamaFinalize s data.message.content) := by
  simp [ollamaHandleData, h]

theorem requestIncludesTools_false (s : OllamaSession) (includeTools : Bool)
    (h : s.toolsSupported = false) :
    requestIncludesTools s includeTools = false := by
  simp [requestIncludesTools, h]

/-- Invariant of the Ollama loop: a clarification outcome leaves the
universal history untouched, a final outcome appends exactly the answer
as one assistant message, and the toolsSupported flag is monotone (it is
never switched back on). -/
theorem ollamaLoop_inv (env : McpEnv) :
    ∀ (script : List OllamaReply) (s : OllamaSession) (turn : OllamaTurn),
      ollamaLoop env s script = some turn →
      (turn.response.clarificationNeeded = none →
          turn.session.history = s.history ++
            [{ role := ChatRole.model, text := turn.response.text }]) ∧
      (∀ q, turn.response.clarificationNeeded = some q →
          turn.session.history = s.history) ∧
      (turn.session.toolsSupported = true → s.toolsSupported = true)
  | [], s, turn => by
      intro h
      simp [ollamaLoop] at h
  | .hardError :: rest, s, turn => by
      intro h
      simp only [ollamaLoop] at h
      injection h with h
      subst h
      refine ⟨fun _ => rfl, fun q hq => ?_, fun ht => ht⟩
      simp [ollamaFallback] at hq
  | .success data :: rest, s, turn => by
      intro h
      simp only [ollamaLoop] at h
      cases hD : ollamaHandleData env s data with
      | clarification q s2 disp =>
          rw [hD] at h
          injection h with h
          subst h
          obtain ⟨hh, hts⟩ := ollamaHandleData_clar env s data q s2 disp hD
          refine ⟨fun hc => by simp at hc, fun q' hq' => hh, fun ht => hts ▸ ht⟩
      | finalAnswer t s2 =>
          rw [hD] at h
          injection h with h
          subst h
          obtain ⟨ht, hs2⟩ := ollamaHandleData_final env s data t s2 hD
          subst hs2
          refine ⟨fun _ => by simp [ollamaFinalize, ht], fun q' hq' => by simp at hq',
            fun hsup => by simpa [ollamaFinalize] using hsup⟩
      | continueLoop s2 disp =>
          rw [hD] at h
          simp only [] at h
          cases hrec : ollamaLoop env s2 rest with
          | none => rw [hrec] at h; cases h
          | some r =>
              rw [hrec] at h
              injection h with h
              subst h
              obtain ⟨hh, hts⟩ := ollamaHandleData_cont env s data s2 disp hD
              have IH := ollamaLoop_inv env rest s2 r hrec
              refine ⟨fun hc => ?_, fun q' hq' => ?_, fun hsup => ?_⟩
              · have := IH.1 hc
                simpa [hh] using this
              · have := IH.2.1 q' hq'
                simpa [hh] using this
              · have := IH.2.2 hsup
                rw [← hts]
                exact this
  | [.toolsNotSupported], s, turn => by
      intro h
      simp [ollamaLoop] at h
  | .toolsNotSupported :: .success data :: rest2, s, turn => by
      intro h
      simp only [ollamaLoop] at h
      cases hD : ollamaHandleData env { s with toolsSupported := false } data with
      | clarification q s2 disp =>
          rw [hD] at h
          injection h with h
          subst h
          obtain ⟨hh, hts⟩ := ollamaHandleData_clar env _ data q s2 disp hD
          refine ⟨fun hc => by simp at hc, fun q' hq' => hh,
            fun hsup => by rw [hts] at hsup; cases hsup⟩
      | finalAnswer t s2 =>
          rw [hD] at h
          injection h with h
          subst h
          obtain ⟨ht, hs2⟩ := ollamaHandleData_final env _ data t s2 hD
          subst hs2
          refine ⟨fun _ => by simp [ollamaFinalize, ht], fun q' hq' => by simp at hq',
            fun hsup => by simp [ollamaFinalize] at hsup⟩
      | continueLoop s2 disp =>
          rw [hD] at h
          simp only [] at h
          cases hrec : ollamaLoop env s2 rest2 with
          | none => rw [hrec] at h; cases h
          | some r =>
              rw [hrec] at h
              injection h with h
              subst h
              obtain ⟨hh, hts⟩ := ollamaHandleData_cont env _ data s2 disp hD
              have IH := ollamaLoop_inv env rest2 s2 r hrec
              refine ⟨fun hc => ?_, fun q' hq' => ?_, fun hsup => ?_⟩
              · have := IH.1 hc
                simpa [hh] using this
              · have := IH.2.1 q' hq'
                simpa [hh] using this
              · have := IH.2.2 hsup
                rw [hts] at this
                cases this
  | .toolsNotSupported :: .hardError :: rest, s, turn => by
      intro h
      simp only [ollamaLoop] at h
      injection h with h
      subst h
      refine ⟨fun _ => rfl, fun q hq => ?_, fun ht => by simp [ollamaFallback] at ht⟩
      simp [ollamaFallback] at hq
  | .toolsNotSupported :: .toolsNotSupported :: rest, s, turn => by
      intro h
      simp only [ollamaLoop] at h
      injection h with h
      subst h
      refine ⟨fun _ => rfl, fun q hq => ?_, fun ht => by simp [ollamaFallback] at ht⟩
      simp [ollamaFallback] at hq

theorem requestIncludesTools_not_requested (s : OllamaSession) :
    requestIncludesTools s false = false := by
  simp [requestIncludesTools]

/-- Once the toolsSupported flag is off, a loop run makes every remaining
request without tool declarations and leaves the flag off. -/
theorem ollamaLoop_no_tools (env : McpEnv) (script : List OllamaReply)
    (s : OllamaSession) (turn : OllamaTurn) (hsup : s.toolsSupported = false)
    (h : ollamaLoop env s script = some turn) :
    turn.session.toolsSupported = false ∧ ∀ b ∈ turn.requests, b = false := by
  rcases script with _ | ⟨r, rest⟩
  · simp [ollamaLoop] at h
  · cases r with
    | hardError =>
        simp only [ollamaLoop] at h
        injection h with h
        subst h
        refine ⟨by simpa [ollamaFallback] using hsup, ?_⟩
        intro b hb
        simp [ollamaFallback] at hb
        rw [hb]
        exact requestIncludesTools_false s true hsup
    | success data =>
        simp only [ollamaLoop] at h
        rw [ollamaHandleData_not_supported env s data hsup] at h
        simp only [] at h
        injection h with h
        subst h
        refine ⟨by simpa [ollamaFinalize] using hsup, ?_⟩
        intro b hb
        simp at hb
        rw [hb]
        exact requestIncludesTools_false s true hsup
    | toolsNotSupported =>
        rcases rest with _ | ⟨r2, rest2⟩
        · simp [ollamaLoop] at h
        · cases r2 with
          | success data =>
              simp only [ollamaLoop] at h
              rw [ollamaHandleData_not_supported env _ data rfl] at h
              simp only [] at h
              injection h with h
              subst h
              refine ⟨by simp [ollamaFinalize], ?_⟩
              intro b hb
              simp at hb
              rcases hb with hb | hb <;> rw [hb]
              · exact requestIncludesTools_false s true hsup
              · exact requestIncludesTools_not_requested _
          | hardError =>
              simp only [ollamaLoop] at h
              injection h with h
              subst h
              refine ⟨by simp [ollamaFallback], ?_⟩
              intro b hb
              simp [ollamaFallback] at hb
              rcases hb with hb | hb <;> rw [hb]
              · exact requestIncludesTools_false s true hsup
              · exact requestIncludesTools_not_requested _
          | toolsNotSupported =>
              simp only [ollamaLoop] at h
              injection h with h
              subst h
              refine ⟨by simp [ollamaFallback], ?_⟩
              intro b hb
              simp [ollamaFallback] at hb
              rcases hb with hb | hb <;> rw [hb]
              · exact requestIncludesTools_false s true hsup
              · exact requestIncludesTools_not_requested _

/-- Detection of the capability mismatch: after a does-not-support-tools
reply the turn makes exactly one retry, without tools, and the session
leaves the turn with the flag permanently off. -/
theorem ollamaLoop_detect (env : McpEnv) (s : OllamaSession) (rest : List OllamaReply)
    (turn : OllamaTurn)
    (h : ollamaLoop env s (.toolsNotSupported :: rest) = some turn) :
    turn.session.toolsSupported = false ∧
    turn.requests = [requestIncludesTools s true,
      requestIncludesTools { s with toolsSupported := false } false] ∧
    requestIncludesTools { s with toolsSupported := false } false = false := by
  rcases rest with _ | ⟨r2, rest2⟩
  · simp [ollamaLoop] at h
  · cases r2 with
    | success data =>
        simp only [ollamaLoop] at h
        rw [ollamaHandleData_not_supported env _ data rfl] at h
        simp only [] at h
        injection h with h
        subst h
        exact ⟨by simp [ollamaFinalize], rfl, requestIncludesTools_not_requested _⟩
    | hardError =>
        simp only [ollamaLoop] at h
        injection h with h
        subst h
        exact ⟨by simp [ollamaFallback], rfl, requestIncludesTools_not_requested _⟩
    | toolsNotSupported =>
        simp only [ollamaLoop] at h
        injection h with h
        subst h
        exact ⟨by simp [ollamaFallback], rfl, requestIncludesTools_not_requested _⟩

theorem ollamaSendMessage_no_tools (env : McpEnv) (s : OllamaSession) (text : String)
    (script : List OllamaReply) (turn : OllamaTurn) (hsup : s.toolsSupported = false)
    (h : ollamaSendMessage env s text script = some turn) :
    turn.session.toolsSupported = false ∧ ∀ b ∈ turn.requests, b = false := by
  simp only [ollamaSendMessage] at h
  refine ollamaLoop_no_tools env script _ turn ?_ h
  simpa using hsup

/-- Across any number of later turns of the same session instance, a
downgraded session never sends tool declarations again. -/
theorem ollamaRunTurns_no_tools (env : McpEnv) :
    ∀ (turns : List (String × List OllamaReply)) (s : OllamaSession)
      (out : OllamaSession × List OllamaTurn),
      s.toolsSupported = false → ollamaRunTurns env s turns = some out →
      out.1.toolsSupported = false ∧ ∀ t ∈ out.2, ∀ b ∈ t.requests, b = false
  | [], s, out => by
      intro hsup h
      simp only [ollamaRunTurns] at h
      injection h with h
      subst h
      exact ⟨hsup, by simp⟩
  | (text, script) :: rest, s, out => by
      intro hsup h
      simp only [ollamaRunTurns] at h
      cases hsm : ollamaSendMessage env s text script with
      | none => rw [hsm] at h; cases h
      | some turn =>
          rw [hsm] at h
          simp only [] at h
          obtain ⟨hts, hreq⟩ := ollamaSendMessage_no_tools env s text script turn hsup hsm
          cases hrt : ollamaRunTurns env turn.session rest with
          | none => rw [hrt] at h; cases h
          | some out2 =>
              obtain ⟨sEnd, turns2⟩ := out2
              rw [hrt] at h
              simp only [] at h
              injection h with h
              subst h
              obtain ⟨h1, h2⟩ :=
                ollamaRunTurns_no_tools env rest turn.session (sEnd, turns2) hts hrt
              refine ⟨h1, ?_⟩
              intro t ht b hb
              rcases List.mem_cons.mp ht with ht | ht
              · subst ht; exact hreq b hb
              · exact h2 t ht b hb

/-- C2: a does-not-support-tools reply on a tool-bearing request makes the
session retry the same request immediately without tool declarations and
permanently clears the toolsSupported flag, and a session whose flag is
cleared never includes tool declarations in any request of any later turn
of that session instance. -/
theorem rest_downgrade_permanent :
    (∀ (env : McpEnv) (s : OllamaSession) (rest : List OllamaReply) (turn : OllamaTurn),
        ollamaLoop env s (.toolsNotSupported :: rest) = some turn →
        turn.session.toolsSupported = false ∧
        turn.requests = [requestIncludesTools s true,
          requestIncludesTools { s with toolsSupported := false } false] ∧
        requestIncludesTools { s with toolsSupported := false } false = false) ∧
    (∀ (env : McpEnv) (turns : List (String × List OllamaReply)) (s : OllamaSession)
        (out : OllamaSession × List OllamaTurn),
        s.toolsSupported = false → ollamaRunTurns env s turns = some out →
        out.1.toolsSupported = false ∧ ∀ t ∈ out.2, ∀ b ∈ t.requests, b = false) :=
  ⟨fun env s rest turn h => ollamaLoop_detect env s rest turn h,
   fun env turns s out h1 h2 => ollamaRunTurns_no_tools env turns s out h1 h2⟩

/-- Witness for C2: a concrete downgrade turn followed by a later turn of
the same session, with the flag off and every request made without
tools. -/
theorem rest_downgrade_permanent_witness :
    ((ollamaLoop mcpEnvW sessionX [.toolsNotSupported, .success dataP]).elim False
      (fun turn => turn.session.toolsSupported = false ∧
        turn.requests = [requestIncludesTools sessionX true,
          requestIncludesTools { sessionX with toolsSupported := false } false] ∧
        requestIncludesTools { sessionX with toolsSupported := false } false = false)) ∧
    ((ollamaRunTurns mcpEnvW sessionDownX [("hej", [.success dataP])]).elim False
      (fun out => out.1.toolsSupported = false ∧
        ∀ t ∈ out.2, ∀ b ∈ t.requests, b = false)) := by
  constructor
  · have hs : (ollamaLoop mcpEnvW sessionX [.toolsNotSupported, .success dataP]).isSome
        = true := rfl
    cases hE : ollamaLoop mcpEnvW sessionX [.toolsNotSupported, .success dataP] with
    | none => rw [hE] at hs; simp at hs
    | some turn =>
        simpa [hE] using rest_downgrade_permanent.1 mcpEnvW sessionX [.success dataP] turn hE
  · have hs : (ollamaRunTurns mcpEnvW sessionDownX [("hej", [.success dataP])]).isSome
        = true := rfl
    cases hE : ollamaRunTurns mcpEnvW sessionDownX [("hej", [.success dataP])] with
    | none => rw [hE] at hs; simp at hs
    | some out =>
        simpa [hE] using
          rest_downgrade_permanent.2 mcpEnvW [("hej", [.success dataP])] sessionDownX out
            rfl hE

/-- C10: in the downgraded state any tool_calls of a response are ignored:
the tool branch is skipped, nothing is dispatched, and the response
content is returned directly as the final answer of the turn. -/
theorem downgraded_ignores_tool_calls (env : McpEnv) (s : OllamaSession)
    (data : OllamaChatResponse) (rest : List OllamaReply)
    (h : s.toolsSupported = false) :
    ollamaHandleData env s data =
      .finalAnswer data.message.content (ollamaFinalize s data.message.content) ∧
    ollamaLoop env s (.success data :: rest) =
      some { response := { text := data.message.content }
             session := ollamaFinalize s data.message.content
             requests := [requestIncludesTools s true]
             dispatched := [] } ∧
    requestIncludesTools s true = false := by
  refine ⟨ollamaHandleData_not_supported env s data h, ?_,
    requestIncludesTools_false s true h⟩
  simp only [ollamaLoop, ollamaHandleData_not_supported env s data h]

/-- Witness for C10: a downgraded session receiving a response that still
carries a tool call returns its content directly and dispatches nothing. -/
theorem downgraded_ignores_tool_calls_witness :
    ollamaLoop mcpEnvW sessionDownX [.success dataT] =
      some { response := { text := dataT.message.content }
             session := ollamaFinalize sessionDownX dataT.message.content
             requests := [requestIncludesTools sessionDownX true]
             dispatched := [] } ∧
    dataT.message.tool_calls = [listCallX] :=
  ⟨(downgraded_ignores_tool_calls mcpEnvW sessionDownX dataT [] rfl).2.1, rfl⟩

/-- C4: a hard backend failure is caught and converted into the fixed
localized fallback assistant message appended to the history, so the turn
still completes with a text result, in both the Ollama loop (at any round
of the turn) and the llama wrapper. -/
theorem hard_failure_fallback :
    (∀ (env : McpEnv) (s : OllamaSession) (rest : List OllamaReply),
        ollamaLoop env s (.hardError :: rest) =
          some (ollamaFallback s [requestIncludesTools s true])) ∧
    (∀ (env : McpEnv) (s : OllamaSession) (text : String) (rest : List OllamaReply)
        (turn : OllamaTurn),
        ollamaSendMessage env s text (.hardError :: rest) = some turn →
        turn.response = { text := fallbackText, clarificationNeeded := none } ∧
        turn.session.history = s.history ++
          [{ role := ChatRole.user, text := text },
           { role := ChatRole.model, text := fallbackText }]) ∧
    (∀ (s : LlamaSession) (text : String),
        (llamaSendMessage s text .err).2 =
          { text := fallbackText, clarificationNeeded := none } ∧
        (llamaSendMessage s text .err).1.history = s.history ++
          [{ role := ChatRole.user, text := text },
           { role := ChatRole.model, text := fallbackText }]) := by
  refine ⟨fun env s rest => by simp [ollamaLoop], ?_, ?_⟩
  · intro env s text rest turn h
    simp only [ollamaSendMessage, ollamaLoop] at h
    injection h with h
    subst h
    exact ⟨rfl, by simp [ollamaFallback]⟩
  · intro s text
    exact ⟨rfl, by simp [llamaSendMessage]⟩

/-- Witness for C4: a concrete failing turn on each variant completes with
the fallback message appended. -/
theorem hard_failure_fallback_witness :
    ((ollamaSendMessage mcpEnvW sessionX "hej" [.hardError]).elim False
      (fun turn => turn.response = { text := fallbackText, clarificationNeeded := none } ∧
        turn.session.history =
          sessionX.history ++
            [{ role := ChatRole.user, text := "hej" },
             { role := ChatRole.model, text := fallbackText }])) ∧
    (llamaSendMessage { history := [], toolsEnabled := true } "hej" .err).2 =
      { text := fallbackText, clarificationNeeded := none } := by
  constructor
  · have hs : (ollamaSendMessage mcpEnvW sessionX "hej" [.hardError]).isSome = true := rfl
    cases hE : ollamaSendMessage mcpEnvW sessionX "hej" [.hardError] with
    | none => rw [hE] at hs; simp at hs
    | some turn =>
        simpa [hE] using
          hard_failure_fallback.2.1 mcpEnvW sessionX "hej" [] turn hE
  · exact (hard_failure_fallback.2.2 { history := [], toolsEnabled := true } "hej").1

theorem ollamaSendMessage_history (env : McpEnv) (s : OllamaSession) (text : String)
    (script : List OllamaReply) (turn : OllamaTurn)
    (h : ollamaSendMessage env s text script = some turn) :
    (∀ q, turn.response.clarificationNeeded = some q →
        turn.session.history = s.history ++ [{ role := ChatRole.user, text := text }]) ∧
    (turn.response.clarificationNeeded = none →
        turn.session.history = s.history ++
          [{ role := ChatRole.user, text := text },
           { role := ChatRole.model, text := turn.response.text }]) := by
  simp only [ollamaSendMessage] at h
  have H := ollamaLoop_inv env script _ turn h
  constructor
  · intro q hq
    have := H.2.1 q hq
    simpa using this
  · intro hq
    have := H.1 hq
    simpa using this

/-- C5 (amended): a clarification turn appends exactly the user message
and no assistant message; a completed turn appends exactly the user
message followed by one assistant message; consequently, when the turn
starts from an even-length history, a clarification turn ends with an odd
length and a user tail, and a completed turn ends with an even length.
(A turn resumed after a clarification starts from an odd-length history,
so its completed end is odd; see the counterexample.) -/
theorem history_shape_amended :
    (∀ (env : McpEnv) (s : OllamaSession) (text : String) (script : List OllamaReply)
        (turn : OllamaTurn), ollamaSendMessage env s text script = some turn →
        ((∀ q, turn.response.clarificationNeeded = some q →
            turn.session.history = s.history ++ [{ role := ChatRole.user, text := text }]) ∧
         (turn.response.clarificationNeeded = none →
            turn.session.history = s.history ++
              [{ role := ChatRole.user, text := text },
               { role := ChatRole.model, text := turn.response.text }]) ∧
         (Even s.history.length →
            (∀ q, turn.response.clarificationNeeded = some q →
               ¬ Even turn.session.history.length ∧
               turn.session.history.getLast? =
                 some { role := ChatRole.user, text := text }) ∧
            (turn.response.clarificationNeeded = none →
               Even turn.session.history.length)))) ∧
    (∀ (s : LlamaSession) (text : String) (pr : LlamaPromptResult),
        ((∀ q, (llamaSendMessage s text pr).2.clarificationNeeded = some q →
            (llamaSendMessage s text pr).1.history =
              s.history ++ [{ role := ChatRole.user, text := text }]) ∧
         ((llamaSendMessage s text pr).2.clarificationNeeded = none →
            (llamaSendMessage s text pr).1.history = s.history ++
              [{ role := ChatRole.user, text := text },
               { role := ChatRole.model, text := (llamaSendMessage s text pr).2.text }]) ∧
         (Even s.history.length →
            (∀ q, (llamaSendMessage s text pr).2.clarificationNeeded = some q →
               ¬ Even (llamaSendMessage s text pr).1.history.length ∧
               (llamaSendMessage s text pr).1.history.getLast? =
                 some { role := ChatRole.user, text := text }) ∧
            ((llamaSendMessage s text pr).2.clarificationNeeded = none →
               Even (llamaSendMessage s text pr).1.history.length)))) := by
  constructor
  · intro env s text script turn h
    obtain ⟨hA, hB⟩ := ollamaSendMessage_history env s text script turn h
    refine ⟨hA, hB, fun heven => ⟨fun q hq => ?_, fun hq => ?_⟩⟩
    · have hh := hA q hq
      rw [hh]
      constructor
      · simpa [List.length_append, Nat.even_add_one] using heven
      · exact List.getLast?_concat _
    · have hh := hB hq
      rw [hh]
      have hlen : (s.history ++
          ([{ role := ChatRole.user, text := text },
            { role := ChatRole.model, text := turn.response.text }] : List ChatMessage)).length =
          s.history.length + 2 := by simp
      rw [hlen]
      exact heven.add (by decide)
  · intro s text pr
    cases pr with
    | err =>
        refine ⟨fun q hq => ?_, fun _ => ?_, fun heven => ⟨fun q hq => ?_, fun _ => ?_⟩⟩
        · simp [llamaSendMessage] at hq
        · simp [llamaSendMessage]
        · simp [llamaSendMessage] at hq
        · simp only [llamaSendMessage]
          simp [List.length_append]
          exact heven.add (by decide)
    | ok resp slot =>
        rcases hif : (if s.toolsEnabled then slot else none) with _ | q0
        · refine ⟨fun q hq => ?_, fun _ => ?_, fun heven => ⟨fun q hq => ?_, fun _ => ?_⟩⟩
          · simp [llamaSendMessage, hif] at hq
          · simp [llamaSendMessage, hif]
          · simp [llamaSendMessage, hif] at hq
          · simp only [llamaSendMessage]
            simp [hif, List.length_append]
            exact heven.add (by decide)
        · refine ⟨fun q hq => ?_, fun hq => ?_, fun heven => ⟨fun q hq => ?_, fun hq => ?_⟩⟩
          · simp [llamaSendMessage, hif]
          · simp [llamaSendMessage, hif] at hq
          · constructor
            · simp only [llamaSendMessage]
              simp [hif, List.length_append, Nat.even_add_one]
              simpa using heven
            · simp [llamaSendMessage, hif, List.getLast?_concat]
          · simp [llamaSendMessage, hif] at hq

/-- Witness for C5: a concrete clarification turn from an even history
ends odd with a user tail, and a concrete completed turn ends even. -/
theorem history_shape_witness :
    Even sessionX.history.length ∧
    ((ollamaSendMessage mcpEnvW sessionX "Cześć" [.success dataP]).elim False
      (fun turn => turn.response.clarificationNeeded = none →
        Even turn.session.history.length)) ∧
    ((ollamaSendMessage mcpEnvW sessionX "Usuń sesję" [.success dataX]).elim False
      (fun turn => ∀ q, turn.response.clarificationNeeded = some q →
        ¬ Even turn.session.history.length ∧
        turn.session.history.getLast? =
          some { role := ChatRole.user, text := "Usuń sesję" })) := by
  refine ⟨⟨0, rfl⟩, ?_, ?_⟩
  · have hs : (ollamaSendMessage mcpEnvW sessionX "Cześć" [.success dataP]).isSome
        = true := rfl
    cases hE : ollamaSendMessage mcpEnvW sessionX "Cześć" [.success dataP] with
    | none => rw [hE] at hs; simp at hs
    | some turn =>
        simpa [hE] using
          ((history_shape_amended.1 mcpEnvW sessionX "Cześć" [.success dataP] turn hE).2.2
            ⟨0, rfl⟩).2
  · have hs : (ollamaSendMessage mcpEnvW sessionX "Usuń sesję" [.success dataX]).isSome
        = true := rfl
    cases hE : ollamaSendMessage mcpEnvW sessionX "Usuń sesję" [.success dataX] with
    | none => rw [hE] at hs; simp at hs
    | some turn =>
        simpa [hE] using
          ((history_shape_amended.1 mcpEnvW sessionX "Usuń sesję" [.success dataX] turn
            hE).2.2 ⟨0, rfl⟩).1

/-- Counterexample for C5: starting from an empty (even) history, a
clarification turn followed by the resumed turn ends in a final answer
with history length 3 — a completed turn whose history length is odd,
refuting the unconditional even-length part of the claim. -/
theorem history_parity_counterexample :
    ((ollamaRunTurns mcpEnvW sessionX
        [("Pokaż sesję", [.success dataX]), ("tę pierwszą", [.success dataP])]).map
      (fun out => (out.1.history.length,
        out.2.map (fun t => t.response.clarificationNeeded))))
      = some (3, [some "Która sesja?", none]) ∧
    ¬ Even 3 := ⟨rfl, by decide⟩

/-- C1 (amended): in the native-function-calling (Gemini) variant, a batch
whose clarification call carries a question short-circuits the whole
round: no call of that batch is dispatched and the turn ends with a
ClarificationRequest.  In the REST-loop (Ollama) variant a clarification
call also ends the turn with a ClarificationRequest, but the other calls
of the same batch are still dispatched first (see the counterexample). -/
theorem clarification_short_circuit_amended :
    (∀ (r : GeminiResponse) (rest : List GeminiResponse) (q : String),
        geminiClarQuestion r.functionCalls = some q →
        geminiLoop (r :: rest) =
          some { response := { text := "", clarificationNeeded := some q }
                 dispatched := [] }) ∧
    (∀ (env : McpEnv) (s : OllamaSession) (data : OllamaChatResponse)
        (rest : List OllamaReply) (q : String),
        (s.toolsEnabled && s.toolsSupported && !data.message.tool_calls.isEmpty) = true →
        (executeToolCalls env data.message.tool_calls).clarificationQuestion = some q →
        ((ollamaLoop env s (.success data :: rest)).map
            (fun t => (t.response, t.requests, t.dispatched))) =
          some ({ text := "", clarificationNeeded := some q },
                [requestIncludesTools s true],
                (executeToolCalls env data.message.tool_calls).dispatched)) := by
  constructor
  · intro r rest q h
    have hne : r.functionCalls.isEmpty = false := by
      cases hfc : r.functionCalls with
      | nil => rw [hfc] at h; simp [geminiClarQuestion] at h
      | cons a l => simp [hfc]
    simp [geminiLoop, hne, h]
  · intro env s data rest q hcond hq
    simp [ollamaLoop, ollamaHandleData, hcond, hq]

/-- Witness for C1: a Gemini batch holding the clarification call and
list_threads ends the turn with the question and dispatches nothing. -/
theorem clarification_short_circuit_witness :
    geminiLoop [{ text := "", functionCalls := [clarCallX, listCallX] }] =
      some { response := { text := "", clarificationNeeded := some "Która sesja?" }
             dispatched := [] } :=
  clarification_short_circuit_amended.1
    { text := "", functionCalls := [clarCallX, listCallX] } [] "Która sesja?" rfl

/-- Counterexample for C1: in the REST-loop variant the same batch shape
leads to a ClarificationRequest, yet the other call of the batch
(list_threads) is dispatched to the tool-execution backend, refuting the
claim that no other call in a clarification-bearing batch is ever
executed. -/
theorem ollama_batch_dispatch_counterexample :
    (executeToolCalls mcpEnvW [clarCallX, listCallX]).clarificationQuestion
        = some "Która sesja?" ∧
    (executeToolCalls mcpEnvW [clarCallX, listCallX]).dispatched = [listCallX] ∧
    ((ollamaLoop mcpEnvW sessionX [.success dataX]).map
        (fun t => (t.response.clarificationNeeded, t.dispatched)))
      = some (some "Która sesja?", [listCallX]) :=
  ⟨rfl, rfl, rfl⟩

/-- Witness for C7: the real catalog has unique names and all three
adapter outputs list them in order. -/
theorem adapters_preserve_names_witness :
    (azorTools.map FunctionDeclaration.name).Nodup ∧
    ((geminiToolConfigOf azorTools).functionDeclarations.map FunctionDeclaration.name
        = azorTools.map FunctionDeclaration.name ∧
     (convertToOllamaTools azorTools).map (fun t => t.function.name)
        = azorTools.map FunctionDeclaration.name ∧
     (convertToLlamaTools azorTools).map Prod.fst
        = azorTools.map FunctionDeclaration.name) :=
  ⟨by decide, adapters_preserve_names azorTools (by decide)⟩

end Azor
